import Mathlib

/-!
Shallow embedding of the auction core of `src/server.js` (the current revision
of the file: the multi-unit uniform-price version, functions `resolveAuction`,
`resetLiveGameState`, the `reset_all` branch of `app.post('/admin_action')`,
the `place_bid` handler, the `force_stop_auction` handler and the
`app.post('/api/admin/team')` CRUD handler).

Modelling conventions:
* JS objects used as maps (`ASSET_CATALOG`, `TEAMS`, `asset.current_bids`,
  `winningBids`) are modelled as insertion-ordered association lists
  `List (String × _)`.  JS objects keyed by uuid/team-id strings enumerate
  their keys in insertion order and cannot contain a duplicate key, which is
  what the list order and the `Nodup` side conditions capture.
* JS numbers that the code treats as integers (bids, budgets, prices,
  quantities) are modelled as `Int`.  `NaN` inputs (a non-numeric `parseInt`)
  are outside the model.
* Wall-clock values (`Date.now()`, the `date`/`time` strings stored in history
  and log entries) and the `setInterval` timer handle are not modelled; the
  timestamp fields are dropped from the records, and `Date.now()` is passed in
  as an explicit `now : Int` argument where the control flow needs it.
* The session/auth fields of `STATE` (`ADMIN_USERNAME`, `ADMIN_PASSWORD`) and
  the HTTP/socket glue are out of scope; only the state transitions the
  handlers perform are modelled.
* `Array.prototype.sort` with comparator `(a, b) => b.bid - a.bid` is a stable
  descending sort (required by the ECMAScript specification); it is modelled
  by the stable insertion sort `sortBidsDesc`.
* `Array.prototype.slice(0, q)` for an integer `q` (possibly negative) is
  modelled by `jsSliceTo`.
* The JS truthiness idiom `x || 500000` on `starting_vc` is modelled by `jsOr`.
-/

namespace Gambit

/-- One record pushed onto `team.assets_won`:
`{ name, cost, quantity }` in `resolveAuction`. -/
structure WonRecord where
  name : String
  cost : Int
  quantity : Int
deriving DecidableEq

/-- A team (`STATE.TEAMS[id]`): `{ id, name, username, password, vc,
starting_vc, assets_won }`.  `starting_vc` is `none` for a team record that
never had the field set. -/
structure Team where
  id : String
  name : String
  username : String
  password : String
  vc : Int
  starting_vc : Option Int
  assets_won : List WonRecord
deriving DecidableEq

/-- An asset (`STATE.ASSET_CATALOG[id]`): `{ id, name, category, min_bid,
quantity, current_bids, winner, final_price, winning_pool }`.  `winner` is the
string field the code stores (`null`, `"MULTIPLE"`, `"NO_WINNER"`,
`"VOID (Budget Fail)"`), modelled as `Option String`. -/
structure Asset where
  id : String
  name : String
  category : String
  min_bid : Int
  quantity : Int
  current_bids : List (String × Int)
  winner : Option String
  final_price : Int
  winning_pool : List String
deriving DecidableEq

/-- One entry of `LIVE_BID_LOG` (the wall-clock `time` string and the constant
`type: 'bid'` field are dropped). -/
structure LogEntry where
  teamName : String
  assetName : String
  bidAmount : Int
deriving DecidableEq

/-- One entry of `STATE.GAME_HISTORY` (the wall-clock `date` string is
dropped; the deep copies of the catalog and the team map are value copies
here). -/
structure HistoryEntry where
  gameId : Int
  duration : Int
  assets : List (String × Asset)
  teams : List (String × Team)
deriving DecidableEq

/-- The mutable server state: the persisted `STATE` object together with the
non-persisted `LIVE_BID_LOG`. -/
structure GameState where
  assets : List (String × Asset)
  teams : List (String × Team)
  auction_active : Bool
  auction_end_time : Option Int
  auction_duration : Int
  live_game_id : Int
  game_history : List HistoryEntry
  live_bid_log : List LogEntry
deriving DecidableEq

/-- The default state returned by `loadState()` when no data file exists
(auth fields omitted). -/
def defaultState : GameState :=
  { assets := []
    teams := []
    auction_active := false
    auction_end_time := none
    auction_duration := 30 * 60
    live_game_id := 1
    game_history := []
    live_bid_log := [] }

/-- Association-list lookup (`obj[key]`), first match. -/
def alookup (k : String) : List (String × β) → Option β
  | [] => none
  | p :: rest => if p.1 = k then some p.2 else alookup k rest

/-- Association-list in-place update of the entry for `k` (`obj[key].f = …`);
entries with other keys and the position of the entry are unchanged. -/
def aupdate (k : String) (f : β → β) (l : List (String × β)) : List (String × β) :=
  l.map (fun p => if p.1 = k then (p.1, f p.2) else p)

/-- JS object assignment `obj[key] = v`: overwrite the existing entry in
place, or append a new entry. -/
def aupsert (k : String) (v : β) (l : List (String × β)) : List (String × β) :=
  if (alookup k l).isSome then aupdate k (fun _ => v) l else l ++ [(k, v)]

/-- JS `x || d` for the optional integer field `starting_vc`: `undefined` and
`0` are falsy. -/
def jsOr : Option Int → Int → Int
  | none, d => d
  | some v, d => if v = 0 then d else v

/-- `Array.prototype.slice(0, q)` for an integer `q`: a negative `q` counts
from the end of the array. -/
def jsSliceTo (q : Int) (l : List α) : List α :=
  if 0 ≤ q then l.take q.toNat else l.take ((l.length : Int) + q).toNat

/-- `arr[arr.length - 1]` of the nonempty list `x :: ys`. -/
def lastOf (x : α) : List α → α
  | [] => x
  | y :: ys => lastOf y ys

/-- An element of the `validBids` array built in `resolveAuction`:
`{ teamId, bid, name }`. -/
structure VBid where
  teamId : String
  bid : Int
  name : String
deriving DecidableEq

/-- Insert `x` into `l` in front of the first element whose bid is `≤ x.bid`
(descending order; an earlier-inserted bid stays in front of an equal later
one). -/
def insertBidDesc (x : VBid) : List VBid → List VBid
  | [] => [x]
  | y :: ys => if y.bid ≤ x.bid then x :: y :: ys else y :: insertBidDesc x ys

/-- Stable descending sort by bid: the model of
`validBids.sort((a, b) => b.bid - a.bid)` (ECMAScript requires this sort to be
stable). -/
def sortBidsDesc : List VBid → List VBid
  | [] => []
  | x :: xs => insertBidDesc x (sortBidsDesc xs)

/-- The `validBids` array collected for one asset: iterate the asset's bid
ledger in insertion order and keep the bids with
`bid >= asset.min_bid && team && bid <= team.vc`. -/
def validBidsOf (teams : List (String × Team)) (a : Asset) : List VBid :=
  a.current_bids.filterMap (fun p =>
    match alookup p.1 teams with
    | some t => if a.min_bid ≤ p.2 ∧ p.2 ≤ t.vc then some ⟨p.1, p.2, t.name⟩ else none
    | none => none)

/-- The winning pool of one asset:
`validBids.sort(…).slice(0, asset.quantity)`. -/
def poolOf (teams : List (String × Team)) (a : Asset) : List VBid :=
  jsSliceTo a.quantity (sortBidsDesc (validBidsOf teams a))

/-- The per-asset clearing step of `resolveAuction`: set `winner`,
`final_price` and `winning_pool` from the winning pool (uniform price = the
bid of the last, i.e. lowest, member of the pool). -/
def clearAsset (teams : List (String × Team)) (a : Asset) : Asset :=
  match poolOf teams a with
  | [] => { a with winner := some "NO_WINNER", final_price := 0, winning_pool := [] }
  | w :: ws =>
      { a with winner := some "MULTIPLE",
               final_price := (lastOf w ws).bid,
               winning_pool := (w :: ws).map (fun v => v.teamId) }

/-- One element of a `winningBids[teamId]` array:
`{ assetId, price, quantity_won }`. -/
structure Win where
  assetId : String
  price : Int
  quantity_won : Int
deriving DecidableEq

/-- `if (!winningBids[tid]) winningBids[tid] = []; winningBids[tid].push(w)`. -/
def pushWin (wb : List (String × List Win)) (tid : String) (w : Win) :
    List (String × List Win) :=
  match alookup tid wb with
  | some _ => aupdate tid (fun ws => ws ++ [w]) wb
  | none => wb ++ [(tid, [w])]

/-- `winningBidders.forEach(winner => … push({assetId, price, quantity_won: 1}))`. -/
def pushWinsGo (aid : String) (price : Int) (wb : List (String × List Win)) :
    List VBid → List (String × List Win)
  | [] => wb
  | v :: vs => pushWinsGo aid price (pushWin wb v.teamId ⟨aid, price, 1⟩) vs

/-- The full per-asset step of phase 1 of `resolveAuction`: the updated asset
together with the `winningBids` accumulator extended by one entry per pool
member (each at the uniform clearing price, one unit). -/
def resolveAssetStep (teams : List (String × Team)) (aid : String) (a : Asset)
    (wb : List (String × List Win)) : Asset × List (String × List Win) :=
  (clearAsset teams a,
   match poolOf teams a with
   | [] => wb
   | w :: ws => pushWinsGo aid ((lastOf w ws).bid) wb (w :: ws))

/-- Phase 1 of `resolveAuction` (`for (const assetId in STATE.ASSET_CATALOG)`):
walk the snapshot of the catalog keys, look each asset up in the current
state, clear it and accumulate `winningBids`.  Only the catalog is written;
`STATE.TEAMS` is only read. -/
def phase1Go : GameState × List (String × List Win) → List String →
    GameState × List (String × List Win)
  | acc, [] => acc
  | (s, wb), aid :: rest =>
      match alookup aid s.assets with
      | none => phase1Go (s, wb) rest
      | some a =>
          let r := resolveAssetStep s.teams aid a wb
          phase1Go ({ s with assets := aupdate aid (fun _ => r.1) s.assets }, r.2) rest

/-- Phase 1 of `resolveAuction` starting from the state with
`AUCTION_ACTIVE = false` (set at the top of the function). -/
def phase1Of (st : GameState) : GameState × List (String × List Win) :=
  phase1Go ({ st with auction_active := false }, []) (st.assets.map Prod.fst)

/-- The finished `winningBids` map of a resolution pass on `st`. -/
def winningBidsOf (st : GameState) : List (String × List Win) :=
  (phase1Of st).2

/-- `winningBids[teamId].reduce((sum, win) => sum + (win.price * win.quantity_won), 0)`. -/
def spendOf (wins : List Win) : Int :=
  wins.foldl (fun s w => s + w.price * w.quantity_won) 0

/-- `STATE.ASSET_CATALOG[aid].name`, with the defensive default `""` for a
missing asset (spec §7: an invariant violation is a defensive skip). -/
def assetName (cat : List (String × Asset)) (aid : String) : String :=
  match alookup aid cat with
  | some a => a.name
  | none => ""

/-- The field assignments of the VOID loop applied to one asset:
`winner = "VOID (Budget Fail)"`, `final_price = 0`, `winning_pool = []`. -/
def voidedAsset (a : Asset) : Asset :=
  { a with winner := some "VOID (Budget Fail)", final_price := 0, winning_pool := [] }

/-- The VOID loop of phase 2: for each win of an over-budget team set the
asset's `winner` to `"VOID (Budget Fail)"`, its `final_price` to `0` and its
`winning_pool` to `[]`. -/
def voidAssets : List Win → List (String × Asset) → List (String × Asset)
  | [], cat => cat
  | w :: ws, cat => voidAssets ws (aupdate w.assetId voidedAsset cat)

/-- One iteration of phase 2 of `resolveAuction`
(`for (const teamId in winningBids)`): deduct the total cost and append the
won-asset records when the team can afford it, otherwise void all of its
wins.  A `winningBids` key with no team record is skipped defensively. -/
def phase2step (s : GameState) (entry : String × List Win) : GameState :=
  match alookup entry.1 s.teams with
  | none => s
  | some team =>
      let totalCost := spendOf entry.2
      if totalCost ≤ team.vc then
        { s with teams := aupdate entry.1 (fun t =>
            { t with vc := t.vc - totalCost,
                     assets_won := t.assets_won ++ entry.2.map (fun w =>
                       { name := assetName s.assets w.assetId,
                         cost := w.price,
                         quantity := w.quantity_won }) }) s.teams }
      else
        { s with assets := voidAssets entry.2 s.assets }

/-- Phase 2 of `resolveAuction` over the whole `winningBids` map. -/
def phase2Go : GameState → List (String × List Win) → GameState
  | s, [] => s
  | s, e :: rest => phase2Go (phase2step s e) rest

/-- `resolveAuction()`: clear the running flag, clear every asset's outcome
from the per-asset pools (phase 1), then run the cross-team budget-discipline
pass (phase 2), and clear `LIVE_BID_LOG`. -/
def resolveAuction (st : GameState) : GameState :=
  let p := phase1Of st
  let st2 := phase2Go p.1 p.2
  { st2 with live_bid_log := [] }

/-- The per-asset assignments of `resetLiveGameState()`:
`current_bids = {}`, `winner = null`, `final_price = 0`, `winning_pool = []`. -/
def clearAssetFields (a : Asset) : Asset :=
  { a with current_bids := [], winner := none, final_price := 0, winning_pool := [] }

/-- The per-team assignments of `resetLiveGameState()`:
`vc = starting_vc || 500000`, `assets_won = []`. -/
def resetTeamFields (t : Team) : Team :=
  { t with vc := jsOr t.starting_vc 500000, assets_won := [] }

/-- `resetLiveGameState()`: stop the auction, clear the live log, clear every
asset's bids and outcome fields, and reset every team to
`vc = starting_vc || 500000` with an empty `assets_won` list. -/
def resetLiveGameState (st : GameState) : GameState :=
  { st with auction_active := false,
            auction_end_time := none,
            live_bid_log := [],
            assets := st.assets.map (fun p => (p.1, clearAssetFields p.2)),
            teams := st.teams.map (fun p => (p.1, resetTeamFields p.2)) }

/-- The history snapshot pushed by the `reset_all` branch (wall-clock `date`
dropped). -/
def historySnapshot (st : GameState) : HistoryEntry :=
  { gameId := st.live_game_id, duration := st.auction_duration,
    assets := st.assets, teams := st.teams }

/-- The `reset_all` branch of `app.post('/admin_action')`: when the catalog is
nonempty (`STATE.TEAMS` is an object and always truthy), push a history
snapshot of the current assets and teams and bump `LIVE_GAME_ID`; then run
`resetLiveGameState()`. -/
def resetAll (st : GameState) : GameState :=
  let st' :=
    if st.assets.length > 0 then
      { st with game_history := st.game_history ++ [historySnapshot st],
                live_game_id := st.live_game_id + 1 }
    else st
  resetLiveGameState st'

/-- The outcome reported to the socket by the `place_bid` handler.
`invalidTarget` is the silent `if (!asset || !team) return;` branch. -/
inductive BidOutcome
  | notActive
  | invalidTarget
  | belowMin
  | overBudget
  | accepted
deriving DecidableEq

/-- The `place_bid` socket handler: reject when the auction is inactive, the
asset or team is unknown, the bid is below the asset's `min_bid` or above the
team's current `vc`; otherwise store the bid (last value wins) and append a
log entry. -/
def placeBid (st : GameState) (teamId assetId : String) (bid : Int) :
    GameState × BidOutcome :=
  if st.auction_active = false then (st, .notActive)
  else
    match alookup assetId st.assets, alookup teamId st.teams with
    | some asset, some team =>
        if bid < asset.min_bid then (st, .belowMin)
        else if team.vc < bid then (st, .overBudget)
        else
          ({ st with
               assets := aupdate assetId (fun a =>
                 { a with current_bids := aupsert teamId bid a.current_bids }) st.assets,
               live_bid_log := st.live_bid_log ++
                 [{ teamName := team.name, assetName := asset.name, bidAmount := bid }] },
           .accepted)
    | _, _ => (st, .invalidTarget)

/-- What the `force_stop_auction` handler does: the resulting state, the
`admin_action_response` payload, and whether the resolved results
(`auction_finished`) were broadcast (they are emitted inside
`resolveAuction`). -/
structure ForceStopResult where
  state : GameState
  success : Bool
  message : String
  broadcastResolved : Bool
deriving DecidableEq

/-- The `force_stop_auction` socket handler. -/
def forceStop (st : GameState) (now : Int) : ForceStopResult :=
  if st.auction_active = false then
    { state := st, success := false,
      message := "Auction is already stopped or finished.",
      broadcastResolved := false }
  else
    { state := resolveAuction
        { st with auction_end_time := some (now - 1000), auction_active := false },
      success := true,
      message := "Auction forcefully stopped and results resolved.",
      broadcastResolved := true }

/-- The action field of a `app.post('/api/admin/team')` request.  For `add`
the fresh `uuidv4()` is passed in as `newId`. -/
inductive TeamCrud
  | add (newId : String)
  | update (id : String)
  | delete (id : String)
deriving DecidableEq

/-- The `app.post('/api/admin/team')` handler: `add` creates a team with
`vc = starting_vc = parseInt(starting_vc)`; `update` rewrites the identity
fields and `starting_vc` (not `vc`); `delete` removes the team.  An unknown
id is a 400 with no state change. -/
def teamAction (st : GameState) (act : TeamCrud) (nm un pw : String)
    (initialVC : Int) : GameState :=
  match act with
  | .add newId =>
      { st with teams := st.teams ++
          [(newId, { id := newId, name := nm, username := un, password := pw,
                     vc := initialVC, starting_vc := some initialVC, assets_won := [] })] }
  | .update id =>
      if (alookup id st.teams).isSome then
        { st with teams := aupdate id (fun t =>
            { t with name := nm, username := un, password := pw,
                     starting_vc := some initialVC }) st.teams }
      else st
  | .delete id =>
      if (alookup id st.teams).isSome then
        { st with teams := st.teams.filter (fun p => decide (p.1 ≠ id)) }
      else st

/-! ### Concrete states used by witnesses and counterexamples -/

/-- A fresh asset record as created by the admin asset CRUD. -/
def mkAsset (id nm : String) (mb q : Int) (bids : List (String × Int)) : Asset :=
  { id := id, name := nm, category := "", min_bid := mb, quantity := q,
    current_bids := bids, winner := none, final_price := 0, winning_pool := [] }

/-- A team record with the given budget and starting budget. -/
def mkTeam (id nm : String) (v : Int) (sv : Option Int) : Team :=
  { id := id, name := nm, username := "u", password := "p", vc := v,
    starting_vc := sv, assets_won := [] }

/-- Two assets, two teams.  Asset `X` (quantity 2) is won by both `A` and `B`
at clearing price 120; asset `Y` (quantity 1) is won by `A` at 150.  Team `A`
(budget 200) is then committed for 270 > 200 and fails the budget check,
while team `B` (budget 500) can afford its 120. -/
def c1State : GameState :=
  { defaultState with
      assets := [("X", mkAsset "X" "Asset X" 100 2 [("A", 150), ("B", 120)]),
                 ("Y", mkAsset "Y" "Asset Y" 100 1 [("A", 150)])],
      teams := [("A", mkTeam "A" "Team A" 200 (some 200)),
                ("B", mkTeam "B" "Team B" 500 (some 500))] }

/-- The spec's worked clearing example: `min_bid = 100`, `quantity = 2`, bids
`A:150, B:120, C:200`; the pool is `[C, A]`. -/
def c2State : GameState :=
  { defaultState with
      assets := [("Z", mkAsset "Z" "Asset Z" 100 2 [("A", 150), ("B", 120), ("C", 200)])],
      teams := [("A", mkTeam "A" "Team A" 500000 (some 500000)),
                ("B", mkTeam "B" "Team B" 500000 (some 500000)),
                ("C", mkTeam "C" "Team C" 500000 (some 500000))] }

/-- `c2State` with a running auction (for bid-submission witnesses). -/
def c2Running : GameState :=
  { c2State with auction_active := true, auction_end_time := some 1000000 }

/-- A state whose only team has starting budget `0` but current budget `7`:
`reset_all` sets its budget to the default `500000`, not to `0`. -/
def c8State : GameState :=
  { defaultState with
      assets := [("X", mkAsset "X" "Asset X" 100 1 [("T0", 150)])],
      teams := [("T0", mkTeam "T0" "Team Zero" 7 (some 0))] }

/-- The spec's affordable example: budget `500000`, one asset won at clearing
price `100000`. -/
def c4State : GameState :=
  { defaultState with
      assets := [("A1", mkAsset "A1" "Enterprise Cloud Server" 100000 1
                   [("T1", 100000)])],
      teams := [("T1", mkTeam "T1" "Team Phoenix" 500000 (some 500000))] }

/-- An asset with two equal bids (`A` first, then `B`), quantity 1:
the tie is broken by ledger insertion order. -/
def c10Asset : Asset := mkAsset "W" "Asset W" 100 1 [("A", 150), ("B", 150)]

/-- A state exercising the equal-bid tie-break. -/
def c10State : GameState :=
  { defaultState with
      assets := [("W", c10Asset)],
      teams := [("A", mkTeam "A" "Team A" 500 (some 500)),
                ("B", mkTeam "B" "Team B" 500 (some 500))] }

/-! ### Invariant predicates -/

/-- Every `winningBids` entry records exactly one unit at the uniform clearing
price of an existing asset of the pre-resolution state `st`. -/
def WBProp (st : GameState) (w : Win) : Prop :=
  w.quantity_won = 1 ∧ ∃ a0, alookup w.assetId st.assets = some a0 ∧
    w.price = (clearAsset st.teams a0).final_price

/-- `WBProp` for every win stored in a `winningBids` map. -/
def WBInv (st : GameState) (wb : List (String × List Win)) : Prop :=
  ∀ tid wins, alookup tid wb = some wins → ∀ w ∈ wins, WBProp st w

/-- Every team's budget is nonnegative. -/
@[reducible] def BudgetsNonneg (st : GameState) : Prop :=
  ∀ p ∈ st.teams, 0 ≤ p.2.vc

/-- Every team's recorded starting budget is nonnegative. -/
@[reducible] def StartingNonneg (st : GameState) : Prop :=
  ∀ p ∈ st.teams, ∀ v, p.2.starting_vc = some v → 0 ≤ v

/-- The catalog `C` agrees with the catalog `C0` except possibly in the three
outcome fields `winner`, `final_price`, `winning_pool` (and has no extra
keys among those of `C0`). -/
def ShellCat (C0 C : List (String × Asset)) : Prop :=
  ∀ aid a0, alookup aid C0 = some a0 → ∃ wi fp pl,
    alookup aid C = some { a0 with winner := wi, final_price := fp, winning_pool := pl }

/-! ### Association-list lemmas -/

theorem alookup_aupdate_self (k : String) (f : β → β) (l : List (String × β)) :
    alookup k (aupdate k f l) = (alookup k l).map f := by
  induction l with
  | nil => rfl
  | cons p rest ih =>
      by_cases h : p.1 = k <;> simp [alookup, aupdate, h] at ih ⊢ <;> exact ih

theorem alookup_aupdate_ne (k' k : String) (f : β → β) (l : List (String × β))
    (h : k' ≠ k) : alookup k' (aupdate k f l) = alookup k' l := by
  induction l with
  | nil => rfl
  | cons p rest ih =>
      have h' : ¬ k = k' := fun he => h he.symm
      by_cases hp : p.1 = k
      · simp [alookup, aupdate, hp, h'] at ih ⊢
        exact ih
      · by_cases hp' : p.1 = k'
        · simp [alookup, aupdate, hp, hp', h, h']
        · simp [alookup, aupdate, hp, hp'] at ih ⊢
          exact ih

theorem aupdate_keys (k : String) (f : β → β) (l : List (String × β)) :
    (aupdate k f l).map Prod.fst = l.map Prod.fst := by
  induction l with
  | nil => rfl
  | cons p rest ih =>
      by_cases h : p.1 = k <;> simp [aupdate, h] at ih ⊢ <;> exact ih

theorem alookup_eq_none_iff (k : String) (l : List (String × β)) :
    alookup k l = none ↔ k ∉ l.map Prod.fst := by
  induction l with
  | nil => simp [alookup]
  | cons p rest ih =>
      by_cases h : p.1 = k
      · simp [alookup, h]
      · have h' : ¬ k = p.1 := fun he => h he.symm
        simp [alookup, h, h', ih]

theorem alookup_isSome_iff (k : String) (l : List (String × β)) :
    (alookup k l).isSome = true ↔ k ∈ l.map Prod.fst := by
  rw [← Decidable.not_not (p := k ∈ l.map Prod.fst), ← alookup_eq_none_iff]
  cases alookup k l <;> simp

theorem alookup_mem (k : String) (v : β) (l : List (String × β))
    (h : alookup k l = some v) : (k, v) ∈ l := by
  induction l with
  | nil => simp [alookup] at h
  | cons p rest ih =>
      by_cases hp : p.1 = k
      · obtain ⟨p1, p2⟩ := p
        have hp1 : p1 = k := hp
        have h2 : p2 = v := by simpa [alookup, hp1] using h
        rw [hp1, h2]
        exact List.mem_cons_self _ _
      · simp [alookup, hp] at h
        exact List.mem_cons_of_mem _ (ih h)

theorem mem_alookup (k : String) (v : β) (l : List (String × β))
    (hnd : (l.map Prod.fst).Nodup) (h : (k, v) ∈ l) : alookup k l = some v := by
  induction l with
  | nil => simp at h
  | cons p rest ih =>
      simp only [List.map_cons, List.nodup_cons] at hnd
      rcases List.mem_cons.mp h with h1 | h1
      · simp [alookup, ← h1]
      · have hk : p.1 ≠ k := by
          intro he
          exact hnd.1 (he ▸ (List.mem_map.mpr ⟨(k, v), h1, rfl⟩))
        simp [alookup, hk, ih hnd.2 h1]

theorem alookup_append_some (k : String) (v : β) (l1 l2 : List (String × β))
    (h : alookup k l1 = some v) : alookup k (l1 ++ l2) = some v := by
  induction l1 with
  | nil => simp [alookup] at h
  | cons p rest ih =>
      by_cases hp : p.1 = k <;> simp [alookup, hp] at h ⊢ <;> simp_all

theorem alookup_append_none (k : String) (l1 l2 : List (String × β))
    (h : alookup k l1 = none) : alookup k (l1 ++ l2) = alookup k l2 := by
  induction l1 with
  | nil => rfl
  | cons p rest ih =>
      by_cases hp : p.1 = k <;> simp [alookup, hp] at h ⊢ <;> simp_all

theorem alookup_aupsert_self (k : String) (v : β) (l : List (String × β)) :
    alookup k (aupsert k v l) = some v := by
  unfold aupsert
  by_cases h : (alookup k l).isSome
  · rcases Option.isSome_iff_exists.mp h with ⟨w, hw⟩
    simp [h, alookup_aupdate_self, hw]
  · have hn : alookup k l = none := by
      cases hx : alookup k l
      · rfl
      · rw [hx] at h; simp at h
    simp only [h, if_false, Bool.false_eq_true]
    rw [alookup_append_none k l [(k, v)] hn]
    simp [alookup]

theorem alookup_aupsert_ne (k' k : String) (v : β) (l : List (String × β))
    (h : k' ≠ k) : alookup k' (aupsert k v l) = alookup k' l := by
  unfold aupsert
  by_cases hs : (alookup k l).isSome
  · simp [hs, alookup_aupdate_ne k' k _ l h]
  · simp only [hs, if_false, Bool.false_eq_true]
    cases hx : alookup k' l with
    | some w => exact alookup_append_some k' w l [(k, v)] hx
    | none =>
        rw [alookup_append_none k' l [(k, v)] hx]
        have h' : ¬ k = k' := fun he => h he.symm
        simp [alookup, h', hx]

theorem aupsert_keys_nodup (k : String) (v : β) (l : List (String × β))
    (hnd : (l.map Prod.fst).Nodup) : ((aupsert k v l).map Prod.fst).Nodup := by
  unfold aupsert
  by_cases hs : (alookup k l).isSome
  · rw [if_pos hs, aupdate_keys]
    exact hnd
  · have hn : alookup k l = none := by
      cases hx : alookup k l
      · rfl
      · rw [hx] at hs; simp at hs
    have hk : k ∉ l.map Prod.fst := (alookup_eq_none_iff k l).mp hn
    rw [if_neg hs]
    simp [List.nodup_append, hnd, hk]

/-! ### Sorting lemmas: the stable descending sort of `validBids` -/

theorem mem_insertBidDesc (x z : VBid) (l : List VBid) :
    z ∈ insertBidDesc x l ↔ z = x ∨ z ∈ l := by
  induction l with
  | nil => simp [insertBidDesc]
  | cons y ys ih =>
      by_cases h : y.bid ≤ x.bid
      · simp [insertBidDesc, h]
      · simp [insertBidDesc, h, ih]
        tauto

theorem mem_sortBidsDesc (z : VBid) (l : List VBid) :
    z ∈ sortBidsDesc l ↔ z ∈ l := by
  induction l with
  | nil => simp [sortBidsDesc]
  | cons x xs ih => simp [sortBidsDesc, mem_insertBidDesc, ih]

theorem length_insertBidDesc (x : VBid) (l : List VBid) :
    (insertBidDesc x l).length = l.length + 1 := by
  induction l with
  | nil => rfl
  | cons y ys ih =>
      by_cases h : y.bid ≤ x.bid <;> simp [insertBidDesc, h, ih]

theorem length_sortBidsDesc (l : List VBid) :
    (sortBidsDesc l).length = l.length := by
  induction l with
  | nil => rfl
  | cons x xs ih => simp [sortBidsDesc, length_insertBidDesc, ih]

theorem pairwise_insertBidDesc (x : VBid) (l : List VBid)
    (h : l.Pairwise (fun a b => b.bid ≤ a.bid)) :
    (insertBidDesc x l).Pairwise (fun a b => b.bid ≤ a.bid) := by
  induction l with
  | nil => simp [insertBidDesc]
  | cons y ys ih =>
      rcases List.pairwise_cons.mp h with ⟨hy, hys⟩
      by_cases hc : y.bid ≤ x.bid
      · rw [insertBidDesc, if_pos hc]
        refine List.pairwise_cons.mpr ⟨?_, h⟩
        intro z hz
        rcases List.mem_cons.mp hz with rfl | hz'
        · exact hc
        · exact le_trans (hy z hz') hc
      · rw [insertBidDesc, if_neg hc]
        refine List.pairwise_cons.mpr ⟨?_, ih hys⟩
        intro z hz
        rcases (mem_insertBidDesc x z ys).mp hz with rfl | hz'
        · exact le_of_lt (lt_of_not_le hc)
        · exact hy z hz'

theorem pairwise_sortBidsDesc (l : List VBid) :
    (sortBidsDesc l).Pairwise (fun a b => b.bid ≤ a.bid) := by
  induction l with
  | nil => simp [sortBidsDesc]
  | cons x xs ih => exact pairwise_insertBidDesc x _ ih

theorem filter_insertBidDesc (x : VBid) (l : List VBid) (v : Int) :
    (insertBidDesc x l).filter (fun e => e.bid == v) =
      if x.bid = v then x :: l.filter (fun e => e.bid == v)
      else l.filter (fun e => e.bid == v) := by
  induction l with
  | nil =>
      by_cases hv : x.bid = v <;> simp [insertBidDesc, List.filter_cons, hv]
  | cons y ys ih =>
      by_cases hc : y.bid ≤ x.bid
      · rw [insertBidDesc, if_pos hc]
        by_cases hv : x.bid = v <;> simp [List.filter_cons, hv]
      · rw [insertBidDesc, if_neg hc]
        by_cases hv : x.bid = v
        · have hyv : ¬ y.bid = v := by
            intro he
            exact hc (le_of_eq (he.trans hv.symm))
          simp [List.filter_cons, hyv, ih, hv]
        · by_cases hyv : y.bid = v <;> simp [List.filter_cons, hyv, ih, hv]

theorem filter_sortBidsDesc (l : List VBid) (v : Int) :
    (sortBidsDesc l).filter (fun e => e.bid == v) =
      l.filter (fun e => e.bid == v) := by
  induction l with
  | nil => rfl
  | cons x xs ih =>
      rw [sortBidsDesc, filter_insertBidDesc]
      by_cases hv : x.bid = v <;> simp [List.filter_cons, hv, ih]

/-! ### `lastOf` lemmas: the uniform clearing price is the pool minimum -/

theorem lastOf_mem (x : α) (l : List α) : lastOf x l ∈ x :: l := by
  induction l generalizing x with
  | nil => simp [lastOf]
  | cons y ys ih =>
      rw [lastOf]
      rcases List.mem_cons.mp (ih y) with h | h
      · simp [h]
      · simp [List.mem_cons_of_mem, h]

theorem lastOf_le (x : VBid) (l : List VBid)
    (h : (x :: l).Pairwise (fun a b => b.bid ≤ a.bid)) :
    ∀ z ∈ x :: l, (lastOf x l).bid ≤ z.bid := by
  induction l generalizing x with
  | nil =>
      intro z hz
      rcases List.mem_cons.mp hz with rfl | hz'
      · exact le_refl _
      · simp at hz'
  | cons y ys ih =>
      intro z hz
      rcases List.pairwise_cons.mp h with ⟨hx, hys⟩
      rcases List.mem_cons.mp hz with rfl | hz'
      · calc (lastOf y ys).bid ≤ y.bid := ih y hys y (List.mem_cons_self _ _)
             _ ≤ z.bid := hx y (List.mem_cons_self _ _)
      · exact ih y hys z hz'

/-! ### Phase-1 lemmas: per-asset clearing over the budget snapshot -/

theorem clearAsset_shell (T : List (String × Team)) (a : Asset) :
    ∃ wi fp pl, clearAsset T a =
      { a with winner := wi, final_price := fp, winning_pool := pl } := by
  cases h : poolOf T a with
  | nil => exact ⟨_, _, _, by rw [clearAsset, h]⟩
  | cons w ws => exact ⟨_, _, _, by rw [clearAsset, h]⟩

theorem phase1Go_teams (L : List String) (acc : GameState × List (String × List Win)) :
    (phase1Go acc L).1.teams = acc.1.teams := by
  induction L generalizing acc with
  | nil => rfl
  | cons aid rest ih =>
      obtain ⟨s, wb⟩ := acc
      cases h : alookup aid s.assets with
      | none => simp only [phase1Go, h]; exact ih _
      | some a => simp only [phase1Go, h]; exact ih _

theorem phase1Go_assets_not_mem (L : List String)
    (acc : GameState × List (String × List Win)) (aid : String) (h : aid ∉ L) :
    alookup aid (phase1Go acc L).1.assets = alookup aid acc.1.assets := by
  induction L generalizing acc with
  | nil => rfl
  | cons l rest ih =>
      obtain ⟨s, wb⟩ := acc
      have hl : l ≠ aid := fun he => h (he ▸ List.mem_cons_self l rest)
      have hrest : aid ∉ rest := fun hm => h (List.mem_cons_of_mem l hm)
      cases hc : alookup l s.assets with
      | none => simp only [phase1Go, hc]; exact ih _ hrest
      | some a =>
          simp only [phase1Go, hc]
          rw [ih _ hrest]
          exact alookup_aupdate_ne aid l (fun _ => (resolveAssetStep s.teams l a wb).1)
            s.assets (fun he => hl he.symm)

theorem phase1Go_assets_mem (T : List (String × Team)) (L : List String)
    (s : GameState) (wb : List (String × List Win)) (aid : String) (a : Asset)
    (hnd : L.Nodup) (hmem : aid ∈ L) (hteams : s.teams = T)
    (ha : alookup aid s.assets = some a) :
    alookup aid (phase1Go (s, wb) L).1.assets = some (clearAsset T a) := by
  induction L generalizing s wb with
  | nil => simp at hmem
  | cons l rest ih =>
      rcases List.nodup_cons.mp hnd with ⟨hl, hndr⟩
      by_cases he : l = aid
      · subst he
        simp only [phase1Go, ha]
        refine Eq.trans (phase1Go_assets_not_mem rest _ l hl) ?_
        rw [alookup_aupdate_self, ha, hteams]
        rfl
      · have hmem' : aid ∈ rest := by
          rcases List.mem_cons.mp hmem with h1 | h1
          · exact absurd h1.symm he
          · exact h1
        cases hc : alookup l s.assets with
        | none => simp only [phase1Go, hc]; exact ih _ _ hndr hmem' hteams ha
        | some b =>
            simp only [phase1Go, hc]
            refine ih _ _ hndr hmem' hteams ?_
            rw [alookup_aupdate_ne aid l (fun _ => (resolveAssetStep s.teams l b wb).1)
              s.assets (fun h2 => he h2.symm)]
            exact ha

theorem phase1Of_teams (st : GameState) : (phase1Of st).1.teams = st.teams := by
  rw [phase1Of, phase1Go_teams]

theorem phase1Of_assets (st : GameState) (hA : (st.assets.map Prod.fst).Nodup)
    (aid : String) :
    alookup aid (phase1Of st).1.assets =
      (alookup aid st.assets).map (clearAsset st.teams) := by
  cases h : alookup aid st.assets with
  | none =>
      have hnm : aid ∉ st.assets.map Prod.fst := (alookup_eq_none_iff aid st.assets).mp h
      rw [phase1Of, phase1Go_assets_not_mem _ _ _ hnm]
      exact h
  | some a =>
      have hm : aid ∈ st.assets.map Prod.fst := by
        have hs : (alookup aid st.assets).isSome = true := by rw [h]; rfl
        exact (alookup_isSome_iff aid st.assets).mp hs
      have key := phase1Go_assets_mem st.teams (st.assets.map Prod.fst)
        { st with auction_active := false } [] aid a hA hm rfl h
      rw [phase1Of, key]
      rfl

/-! ### `winningBids` lemmas -/

theorem alookup_pushWin_self (wb : List (String × List Win)) (tid : String) (w : Win) :
    alookup tid (pushWin wb tid w) = some ((alookup tid wb).getD [] ++ [w]) := by
  cases h : alookup tid wb with
  | some ws =>
      rw [pushWin, h, alookup_aupdate_self, h]
      rfl
  | none =>
      rw [pushWin, h, alookup_append_none tid wb [(tid, [w])] h]
      simp [alookup]

theorem alookup_pushWin_ne (wb : List (String × List Win)) (tid : String) (w : Win)
    (tid' : String) (h : tid' ≠ tid) :
    alookup tid' (pushWin wb tid w) = alookup tid' wb := by
  cases hc : alookup tid wb with
  | some ws => rw [pushWin, hc]; exact alookup_aupdate_ne tid' tid _ wb h
  | none =>
      rw [pushWin, hc]
      cases hx : alookup tid' wb with
      | some ws => exact alookup_append_some tid' ws wb [(tid, [w])] hx
      | none =>
          rw [alookup_append_none tid' wb [(tid, [w])] hx]
          have h' : ¬ tid = tid' := fun he => h he.symm
          simp [alookup, h', hx]

theorem pushWin_keys_nodup (wb : List (String × List Win)) (tid : String) (w : Win)
    (hnd : (wb.map Prod.fst).Nodup) : ((pushWin wb tid w).map Prod.fst).Nodup := by
  cases h : alookup tid wb with
  | some ws => rw [pushWin, h, aupdate_keys]; exact hnd
  | none =>
      rw [pushWin, h]
      have hk : tid ∉ wb.map Prod.fst := (alookup_eq_none_iff tid wb).mp h
      simp [List.nodup_append, hnd, hk]

theorem WBInv_pushWin (st : GameState) (wb : List (String × List Win))
    (tid : String) (w : Win) (hinv : WBInv st wb) (hw : WBProp st w) :
    WBInv st (pushWin wb tid w) := by
  intro tid' wins h
  by_cases he : tid' = tid
  · subst he
    rw [alookup_pushWin_self] at h
    have hwins := Option.some.inj h
    intro w' hw'
    rw [← hwins] at hw'
    rcases List.mem_append.mp hw' with h1 | h1
    · cases hx : alookup tid' wb with
      | none => rw [hx] at h1; simp at h1
      | some ws =>
          rw [hx] at h1
          exact hinv tid' ws hx w' h1
    · rw [List.mem_singleton.mp h1]
      exact hw
  · rw [alookup_pushWin_ne wb tid w tid' he] at h
    exact hinv tid' wins h

theorem WBInv_pushWinsGo (st : GameState) (aid : String) (price : Int)
    (pool : List VBid) (wb : List (String × List Win))
    (hinv : WBInv st wb) (hw : WBProp st ⟨aid, price, 1⟩) :
    WBInv st (pushWinsGo aid price wb pool) := by
  induction pool generalizing wb with
  | nil => exact hinv
  | cons v vs ih =>
      rw [pushWinsGo]
      exact ih _ (WBInv_pushWin st wb v.teamId _ hinv hw)

theorem pushWinsGo_keys_nodup (aid : String) (price : Int) (pool : List VBid)
    (wb : List (String × List Win)) (hnd : (wb.map Prod.fst).Nodup) :
    ((pushWinsGo aid price wb pool).map Prod.fst).Nodup := by
  induction pool generalizing wb with
  | nil => exact hnd
  | cons v vs ih =>
      rw [pushWinsGo]
      exact ih _ (pushWin_keys_nodup wb v.teamId _ hnd)

theorem phase1Go_wb_keys_nodup (L : List String)
    (acc : GameState × List (String × List Win))
    (hnd : (acc.2.map Prod.fst).Nodup) :
    ((phase1Go acc L).2.map Prod.fst).Nodup := by
  induction L generalizing acc with
  | nil => exact hnd
  | cons aid rest ih =>
      obtain ⟨s, wb⟩ := acc
      cases hc : alookup aid s.assets with
      | none => simp only [phase1Go, hc]; exact ih _ hnd
      | some a =>
          simp only [phase1Go, hc]
          refine ih _ ?_
          show (((resolveAssetStep s.teams aid a wb).2).map Prod.fst).Nodup
          rw [resolveAssetStep]
          cases hp : poolOf s.teams a with
          | nil => exact hnd
          | cons w ws => exact pushWinsGo_keys_nodup aid _ _ wb hnd

theorem phase1Go_wb_inv (st : GameState) (L : List String) (s : GameState)
    (wb : List (String × List Win)) (hnd : L.Nodup) (hteams : s.teams = st.teams)
    (hagree : ∀ k ∈ L, alookup k s.assets = alookup k st.assets)
    (hinv : WBInv st wb) : WBInv st (phase1Go (s, wb) L).2 := by
  induction L generalizing s wb with
  | nil => exact hinv
  | cons aid rest ih =>
      rcases List.nodup_cons.mp hnd with ⟨haid, hndr⟩
      have hag : alookup aid s.assets = alookup aid st.assets :=
        hagree aid (List.mem_cons_self _ _)
      cases hc : alookup aid s.assets with
      | none =>
          simp only [phase1Go, hc]
          exact ih _ _ hndr hteams (fun k hk => hagree k (List.mem_cons_of_mem _ hk)) hinv
      | some a =>
          simp only [phase1Go, hc]
          refine ih _ _ hndr hteams ?_ ?_
          · intro k hk
            have hne : k ≠ aid := fun he => haid (he ▸ hk)
            rw [alookup_aupdate_ne k aid (fun _ => (resolveAssetStep s.teams aid a wb).1)
              s.assets hne]
            exact hagree k (List.mem_cons_of_mem _ hk)
          · show WBInv st ((resolveAssetStep s.teams aid a wb).2)
            rw [resolveAssetStep]
            cases hp : poolOf s.teams a with
            | nil => exact hinv
            | cons w ws =>
                refine WBInv_pushWinsGo st aid _ _ wb hinv ?_
                refine ⟨rfl, a, ?_, ?_⟩
                · rw [← hag, hc]
                · rw [clearAsset, ← hteams, hp]

theorem winningBidsOf_keys_nodup (st : GameState) :
    ((winningBidsOf st).map Prod.fst).Nodup := by
  rw [winningBidsOf, phase1Of]
  exact phase1Go_wb_keys_nodup _ _ (by simp)

theorem winningBidsOf_inv (st : GameState)
    (hA : (st.assets.map Prod.fst).Nodup) : WBInv st (winningBidsOf st) := by
  rw [winningBidsOf, phase1Of]
  refine phase1Go_wb_inv st _ _ [] hA rfl (fun k hk => rfl) ?_
  intro tid wins h
  simp [alookup] at h

/-! ### Phase-2 lemmas: the cross-team budget-discipline pass -/

theorem voidedAsset_idem (a : Asset) : voidedAsset (voidedAsset a) = voidedAsset a := rfl

theorem phase2step_teams_ne (s : GameState) (e : String × List Win) (tid : String)
    (h : tid ≠ e.1) : alookup tid (phase2step s e).teams = alookup tid s.teams := by
  rw [phase2step]
  cases hc : alookup e.1 s.teams with
  | none => rfl
  | some team =>
      by_cases hm : spendOf e.2 ≤ team.vc
      · simp only [hm, if_pos]
        exact alookup_aupdate_ne tid e.1 _ s.teams h
      · simp only [hm, if_neg, if_false]

theorem phase2Go_teams_not_mem (entries : List (String × List Win)) (s : GameState)
    (tid : String) (h : tid ∉ entries.map Prod.fst) :
    alookup tid (phase2Go s entries).teams = alookup tid s.teams := by
  induction entries generalizing s with
  | nil => rfl
  | cons e rest ih =>
      have h1 : tid ≠ e.1 := fun he => h (by simp [he])
      have h2 : tid ∉ rest.map Prod.fst := fun hm => h (by simp [hm])
      rw [phase2Go, ih _ h2, phase2step_teams_ne s e tid h1]

theorem voidAssets_shell (C0 : List (String × Asset)) (ws : List Win)
    (cat : List (String × Asset)) (h : ShellCat C0 cat) :
    ShellCat C0 (voidAssets ws cat) := by
  induction ws generalizing cat with
  | nil => exact h
  | cons w rest ih =>
      rw [voidAssets]
      refine ih _ ?_
      intro aid a0 ha
      obtain ⟨wi, fp, pl, he⟩ := h aid a0 ha
      by_cases hk : aid = w.assetId
      · subst hk
        rw [alookup_aupdate_self, he]
        exact ⟨some "VOID (Budget Fail)", 0, [], rfl⟩
      · rw [alookup_aupdate_ne aid w.assetId voidedAsset cat hk]
        exact ⟨wi, fp, pl, he⟩

theorem voidAssets_preserves_voided (k : String) (a0 : Asset) (ws : List Win)
    (cat : List (String × Asset)) (h : alookup k cat = some (voidedAsset a0)) :
    alookup k (voidAssets ws cat) = some (voidedAsset a0) := by
  induction ws generalizing cat with
  | nil => exact h
  | cons w rest ih =>
      rw [voidAssets]
      refine ih _ ?_
      by_cases hk : k = w.assetId
      · subst hk
        rw [alookup_aupdate_self, h]
        rfl
      · rw [alookup_aupdate_ne k w.assetId voidedAsset cat hk]
        exact h

theorem voidAssets_sets (C0 : List (String × Asset)) (ws : List Win)
    (cat : List (String × Asset)) (hshell : ShellCat C0 cat) :
    ∀ w ∈ ws, ∀ a0, alookup w.assetId C0 = some a0 →
      alookup w.assetId (voidAssets ws cat) = some (voidedAsset a0) := by
  induction ws generalizing cat with
  | nil => intro w hw; simp at hw
  | cons w0 rest ih =>
      intro w hw a0 ha
      rcases List.mem_cons.mp hw with rfl | hw'
      · rw [voidAssets]
        refine voidAssets_preserves_voided _ _ _ _ ?_
        obtain ⟨wi, fp, pl, he⟩ := hshell w.assetId a0 ha
        rw [alookup_aupdate_self, he]
        rfl
      · rw [voidAssets]
        exact ih _ (voidAssets_shell C0 [w0] cat hshell) w hw' a0 ha

theorem phase2step_shell (st : GameState) (s : GameState) (e : String × List Win)
    (h : ShellCat st.assets s.assets) : ShellCat st.assets (phase2step s e).assets := by
  rw [phase2step]
  cases hc : alookup e.1 s.teams with
  | none => exact h
  | some team =>
      by_cases hm : spendOf e.2 ≤ team.vc
      · simp only [hm, if_pos]
        exact h
      · simp only [hm, if_neg, if_false]
        exact voidAssets_shell st.assets e.2 s.assets h

theorem phase2step_preserves_voided (s : GameState) (e : String × List Win)
    (k : String) (a0 : Asset) (h : alookup k s.assets = some (voidedAsset a0)) :
    alookup k (phase2step s e).assets = some (voidedAsset a0) := by
  rw [phase2step]
  cases hc : alookup e.1 s.teams with
  | none => exact h
  | some team =>
      by_cases hm : spendOf e.2 ≤ team.vc
      · simp only [hm, if_pos]
        exact h
      · simp only [hm, if_neg, if_false]
        exact voidAssets_preserves_voided k a0 e.2 s.assets h

theorem phase2Go_preserves_voided (entries : List (String × List Win)) (s : GameState)
    (k : String) (a0 : Asset) (h : alookup k s.assets = some (voidedAsset a0)) :
    alookup k (phase2Go s entries).assets = some (voidedAsset a0) := by
  induction entries generalizing s with
  | nil => exact h
  | cons e rest ih =>
      rw [phase2Go]
      exact ih _ (phase2step_preserves_voided s e k a0 h)

theorem phase2Go_fail (st : GameState) (entries : List (String × List Win))
    (s : GameState) (tid : String) (tm : Team) (wins : List Win)
    (hnd : (entries.map Prod.fst).Nodup)
    (hent : alookup tid entries = some wins)
    (ht : alookup tid s.teams = some tm)
    (hshell : ShellCat st.assets s.assets)
    (hover : tm.vc < spendOf wins) :
    alookup tid (phase2Go s entries).teams = some tm ∧
    ∀ w ∈ wins, ∀ a0, alookup w.assetId st.assets = some a0 →
      alookup w.assetId (phase2Go s entries).assets = some (voidedAsset a0) := by
  induction entries generalizing s with
  | nil => simp [alookup] at hent
  | cons e rest ih =>
      rcases List.nodup_cons.mp hnd with ⟨hkey, hndr⟩
      by_cases he : e.1 = tid
      · have hwins : e.2 = wins := by
          have := hent
          rw [alookup] at this
          rw [if_pos he] at this
          exact Option.some.inj this
        have hstep : phase2step s e = { s with assets := voidAssets wins s.assets } := by
          rw [phase2step, he, ht]
          simp only [hwins]
          rw [if_neg (not_le.mpr hover)]
        have hnm : tid ∉ rest.map Prod.fst := he ▸ hkey
        constructor
        · rw [phase2Go, hstep, phase2Go_teams_not_mem rest _ tid hnm]
          exact ht
        · intro w hw a0 ha
          rw [phase2Go, hstep]
          refine phase2Go_preserves_voided rest _ _ a0 ?_
          exact voidAssets_sets st.assets wins s.assets hshell w hw a0 ha
      · have hent' : alookup tid rest = some wins := by
          have := hent
          rw [alookup, if_neg he] at this
          exact this
        rw [phase2Go]
        refine ih _ hndr hent' ?_ (phase2step_shell st s e hshell)
        rw [phase2step_teams_ne s e tid (fun h2 => he h2.symm)]
        exact ht

theorem phase2Go_afford (st : GameState) (entries : List (String × List Win))
    (s : GameState) (tid : String) (tm : Team) (wins : List Win)
    (hnd : (entries.map Prod.fst).Nodup)
    (hent : alookup tid entries = some wins)
    (ht : alookup tid s.teams = some tm)
    (hshell : ShellCat st.assets s.assets)
    (haff : spendOf wins ≤ tm.vc)
    (hwa : ∀ w ∈ wins, ∃ a0, alookup w.assetId st.assets = some a0) :
    alookup tid (phase2Go s entries).teams =
      some { tm with
               vc := tm.vc - spendOf wins,
               assets_won := tm.assets_won ++ wins.map (fun w =>
                 { name := assetName st.assets w.assetId, cost := w.price,
                   quantity := w.quantity_won }) } := by
  induction entries generalizing s with
  | nil => simp [alookup] at hent
  | cons e rest ih =>
      rcases List.nodup_cons.mp hnd with ⟨hkey, hndr⟩
      by_cases he : e.1 = tid
      · have hwins : e.2 = wins := by
          have := hent
          rw [alookup] at this
          rw [if_pos he] at this
          exact Option.some.inj this
        have hnames : wins.map (fun w =>
            ({ name := assetName s.assets w.assetId, cost := w.price,
               quantity := w.quantity_won } : WonRecord)) = wins.map (fun w =>
            ({ name := assetName st.assets w.assetId, cost := w.price,
               quantity := w.quantity_won } : WonRecord)) := by
          refine List.map_congr_left ?_
          intro w hw
          obtain ⟨a0, ha0⟩ := hwa w hw
          obtain ⟨wi, fp, pl, he'⟩ := hshell w.assetId a0 ha0
          simp [assetName, ha0, he']
        have hstep : phase2step s e =
            { s with teams := aupdate tid (fun t =>
                { t with vc := t.vc - spendOf wins,
                         assets_won := t.assets_won ++ wins.map (fun w =>
                           { name := assetName s.assets w.assetId, cost := w.price,
                             quantity := w.quantity_won }) }) s.teams } := by
          rw [phase2step, he, ht]
          simp only [hwins]
          rw [if_pos haff]
        have hnm : tid ∉ rest.map Prod.fst := he ▸ hkey
        rw [phase2Go, hstep, phase2Go_teams_not_mem rest _ tid hnm]
        refine Eq.trans (alookup_aupdate_self tid (fun t =>
            { t with vc := t.vc - spendOf wins,
                     assets_won := t.assets_won ++ wins.map (fun w =>
                       ({ name := assetName s.assets w.assetId, cost := w.price,
                          quantity := w.quantity_won } : WonRecord)) }) s.teams) ?_
        rw [ht]
        simp [hnames]
      · have hent' : alookup tid rest = some wins := by
          have := hent
          rw [alookup, if_neg he] at this
          exact this
        rw [phase2Go]
        refine ih _ hndr hent' ?_ (phase2step_shell st s e hshell)
        rw [phase2step_teams_ne s e tid (fun h2 => he h2.symm)]
        exact ht

/-! ### Bridge lemmas: `resolveAuction`, reset, and `placeBid` -/

theorem alookup_map_snd (k : String) (g : β → β') (l : List (String × β)) :
    alookup k (l.map (fun p => (p.1, g p.2))) = (alookup k l).map g := by
  induction l with
  | nil => rfl
  | cons p rest ih =>
      by_cases h : p.1 = k <;> simp [alookup, h, ih]

theorem resolveAuction_teams_def (st : GameState) :
    (resolveAuction st).teams = (phase2Go (phase1Of st).1 (phase1Of st).2).teams := rfl

theorem resolveAuction_assets_def (st : GameState) :
    (resolveAuction st).assets = (phase2Go (phase1Of st).1 (phase1Of st).2).assets := rfl

theorem phase1Of_shell (st : GameState) (hA : (st.assets.map Prod.fst).Nodup) :
    ShellCat st.assets (phase1Of st).1.assets := by
  intro aid a0 h
  rw [phase1Of_assets st hA aid, h]
  obtain ⟨wi, fp, pl, he⟩ := clearAsset_shell st.teams a0
  exact ⟨wi, fp, pl, by rw [Option.map, he]⟩

theorem phase2step_teams_keys (s : GameState) (e : String × List Win) :
    (phase2step s e).teams.map Prod.fst = s.teams.map Prod.fst := by
  rw [phase2step]
  cases hc : alookup e.1 s.teams with
  | none => rfl
  | some team =>
      by_cases hm : spendOf e.2 ≤ team.vc
      · simp only [hm, if_pos]
        exact aupdate_keys e.1 _ s.teams
      · simp only [hm, if_neg, if_false]

theorem phase2Go_teams_keys (entries : List (String × List Win)) (s : GameState) :
    (phase2Go s entries).teams.map Prod.fst = s.teams.map Prod.fst := by
  induction entries generalizing s with
  | nil => rfl
  | cons e rest ih => rw [phase2Go, ih, phase2step_teams_keys]

theorem resolveAuction_teams_keys (st : GameState) :
    (resolveAuction st).teams.map Prod.fst = st.teams.map Prod.fst := by
  rw [resolveAuction_teams_def, phase2Go_teams_keys, phase1Of_teams]

/-- Every team entry of `resolveAuction st` is either unchanged or has had one
affordable total deducted. -/
theorem resolveAuction_vc (st : GameState)
    (hA : (st.assets.map Prod.fst).Nodup) (tid : String) (tm : Team)
    (ht : alookup tid st.teams = some tm) :
    alookup tid (resolveAuction st).teams = some tm ∨
    ∃ c, c ≤ tm.vc ∧ ∃ recs, alookup tid (resolveAuction st).teams =
      some { tm with vc := tm.vc - c, assets_won := recs } := by
  have ht0 : alookup tid (phase1Of st).1.teams = some tm := by
    rw [phase1Of_teams]; exact ht
  have hshell := phase1Of_shell st hA
  have hnd := winningBidsOf_keys_nodup st
  rw [resolveAuction_teams_def]
  cases hw : alookup tid (winningBidsOf st) with
  | none =>
      left
      have hnm : tid ∉ (winningBidsOf st).map Prod.fst :=
        (alookup_eq_none_iff tid (winningBidsOf st)).mp hw
      show alookup tid (phase2Go (phase1Of st).1 (winningBidsOf st)).teams = some tm
      rw [phase2Go_teams_not_mem _ _ tid hnm]
      exact ht0
  | some wins =>
      by_cases haff : spendOf wins ≤ tm.vc
      · right
        have hres := phase2Go_afford st (winningBidsOf st) (phase1Of st).1 tid tm wins
          hnd hw ht0 hshell haff (fun w hwm =>
            (winningBidsOf_inv st hA tid wins hw w hwm).2.imp (fun a0 h => h.1))
        exact ⟨spendOf wins, haff, _, hres⟩
      · left
        exact (phase2Go_fail st (winningBidsOf st) (phase1Of st).1 tid tm wins hnd hw
          ht0 hshell (not_le.mp haff)).1

theorem resolveAuction_nonneg (st : GameState)
    (hT : (st.teams.map Prod.fst).Nodup) (hA : (st.assets.map Prod.fst).Nodup)
    (h0 : BudgetsNonneg st) : BudgetsNonneg (resolveAuction st) := by
  intro p hp
  have hkeys := resolveAuction_teams_keys st
  have hndf : ((resolveAuction st).teams.map Prod.fst).Nodup := by
    rw [hkeys]; exact hT
  have hlf : alookup p.1 (resolveAuction st).teams = some p.2 :=
    mem_alookup p.1 p.2 _ hndf (by cases p; exact hp)
  have hmemk : p.1 ∈ st.teams.map Prod.fst := by
    rw [← hkeys]
    exact List.mem_map.mpr ⟨p, hp, rfl⟩
  have hsome : (alookup p.1 st.teams).isSome = true :=
    (alookup_isSome_iff p.1 st.teams).mpr hmemk
  rcases Option.isSome_iff_exists.mp hsome with ⟨tm, htm⟩
  have h0tm : 0 ≤ tm.vc := h0 (p.1, tm) (alookup_mem p.1 tm st.teams htm)
  rcases resolveAuction_vc st hA p.1 tm htm with hcase | ⟨c, hc, recs, hcase⟩
  · rw [hlf] at hcase
    have h2 := Option.some.inj hcase
    rw [h2]
    exact h0tm
  · rw [hlf] at hcase
    have h2 := Option.some.inj hcase
    rw [h2]
    exact sub_nonneg.mpr hc

theorem placeBid_teams_eq (st : GameState) (tid aid : String) (b : Int) :
    (placeBid st tid aid b).1.teams = st.teams := by
  rw [placeBid]
  by_cases hact : st.auction_active = false
  · rw [if_pos hact]
  · rw [if_neg hact]
    cases alookup aid st.assets with
    | none => rfl
    | some a =>
        cases alookup tid st.teams with
        | none => rfl
        | some t =>
            by_cases h1 : b < a.min_bid
            · simp only [h1, if_pos]
            · by_cases h2 : t.vc < b
              · simp only [h1, if_neg, if_false, h2, if_pos]
              · simp only [h1, if_neg, if_false, h2]

theorem resetLive_nonneg (st : GameState) (hs : StartingNonneg st) :
    BudgetsNonneg (resetLiveGameState st) := by
  intro p hp
  rw [resetLiveGameState] at hp
  rcases List.mem_map.mp hp with ⟨q, hq, he⟩
  rw [← he]
  show (0 : Int) ≤ jsOr q.2.starting_vc 500000
  cases hsv : q.2.starting_vc with
  | none => rw [jsOr]; norm_num
  | some v =>
      rw [jsOr]
      by_cases hz : v = 0
      · rw [if_pos hz]; norm_num
      · rw [if_neg hz]
        exact hs q hq v hsv

theorem resetAll_teams_eq (st : GameState) :
    (resetAll st).teams = (resetLiveGameState st).teams := by
  rw [resetAll]
  by_cases h : st.assets.length > 0 <;> simp only [h, if_pos, if_neg, if_false] <;> rfl

theorem resetAll_assets (st : GameState) :
    (resetAll st).assets = st.assets.map (fun p => (p.1, clearAssetFields p.2)) := by
  rw [resetAll]
  by_cases h : st.assets.length > 0 <;> simp only [h, if_pos, if_neg, if_false] <;> rfl

theorem resetAll_teams (st : GameState) :
    (resetAll st).teams = st.teams.map (fun p => (p.1, resetTeamFields p.2)) := by
  rw [resetAll]
  by_cases h : st.assets.length > 0 <;> simp only [h, if_pos, if_neg, if_false] <;> rfl

theorem resetAll_flags (st : GameState) :
    (resetAll st).auction_active = false ∧ (resetAll st).auction_end_time = none ∧
    (resetAll st).live_bid_log = [] ∧
    (resetAll st).auction_duration = st.auction_duration := by
  rw [resetAll]
  by_cases h : st.assets.length > 0 <;> simp only [h, if_pos, if_neg, if_false] <;>
    exact ⟨rfl, rfl, rfl, rfl⟩

theorem resetAll_history (st : GameState) :
    (resetAll st).game_history =
      if st.assets.length > 0 then st.game_history ++ [historySnapshot st]
      else st.game_history := by
  rw [resetAll]
  by_cases h : st.assets.length > 0 <;> simp only [h, if_pos, if_neg, if_false] <;> rfl

theorem resetAll_gameid (st : GameState) :
    (resetAll st).live_game_id =
      st.live_game_id + (if st.assets.length > 0 then 1 else 0) := by
  by_cases h : st.assets.length > 0 <;> simp [resetAll, resetLiveGameState, h]

theorem resetAll_assets_length (st : GameState) :
    (resetAll st).assets.length = st.assets.length := by
  rw [resetAll_assets, List.length_map]

theorem clearAsset_eq_nil (T : List (String × Team)) (a : Asset)
    (hp : poolOf T a = []) :
    clearAsset T a =
      { a with winner := some "NO_WINNER", final_price := 0, winning_pool := [] } := by
  unfold clearAsset
  rw [hp]

theorem clearAsset_eq_cons (T : List (String × Team)) (a : Asset) (w : VBid)
    (ws : List VBid) (hp : poolOf T a = w :: ws) :
    clearAsset T a =
      { a with winner := some "MULTIPLE",
               final_price := (lastOf w ws).bid,
               winning_pool := (w :: ws).map (fun v => v.teamId) } := by
  unfold clearAsset
  rw [hp]

theorem clearAsset_winning_pool (T : List (String × Team)) (a : Asset) :
    (clearAsset T a).winning_pool = (poolOf T a).map VBid.teamId := by
  cases hp : poolOf T a with
  | nil => rw [clearAsset_eq_nil T a hp]; rfl
  | cons w ws => rw [clearAsset_eq_cons T a w ws hp]

/-! ### Claim theorems -/

/-- C9 (confirmed): invoking `force_stop_auction` while the auction is not
running is rejected with the explicit "already stopped" response
(`success = false`, message `"Auction is already stopped or finished."`),
leaves the whole state unchanged, and does not broadcast resolved results. -/
theorem force_stop_inactive_rejected (st : GameState) (now : Int)
    (h : st.auction_active = false) :
    forceStop st now =
      { state := st, success := false,
        message := "Auction is already stopped or finished.",
        broadcastResolved := false } := by
  rw [forceStop, if_pos h]

/-- Witness for C9 at a concrete idle state. -/
theorem force_stop_inactive_rejected_witness :
    forceStop c2State 7 =
      { state := c2State, success := false,
        message := "Auction is already stopped or finished.",
        broadcastResolved := false } :=
  force_stop_inactive_rejected c2State 7 rfl

/-- C5 (corrected): reset is NOT idempotent on the whole state: the second
`reset_all` leaves every asset, team, and auction field identical to the
state after the first call, but — because the catalog is still nonempty — it
pushes one more `GAME_HISTORY` snapshot and increments `LIVE_GAME_ID` again.
This theorem is the amended claim: idempotence holds for every component
except the history log and the game counter, which grow by one per call. -/
theorem reset_idempotent_except_history (st : GameState) :
    (resetAll (resetAll st)).assets = (resetAll st).assets ∧
    (resetAll (resetAll st)).teams = (resetAll st).teams ∧
    (resetAll (resetAll st)).auction_active = (resetAll st).auction_active ∧
    (resetAll (resetAll st)).auction_end_time = (resetAll st).auction_end_time ∧
    (resetAll (resetAll st)).auction_duration = (resetAll st).auction_duration ∧
    (resetAll (resetAll st)).live_bid_log = (resetAll st).live_bid_log ∧
    (resetAll (resetAll st)).game_history.length =
      (resetAll st).game_history.length + (if st.assets.length > 0 then 1 else 0) ∧
    (resetAll (resetAll st)).live_game_id =
      (resetAll st).live_game_id + (if st.assets.length > 0 then 1 else 0) := by
  have hlen : (resetAll st).assets.length = st.assets.length := resetAll_assets_length st
  refine ⟨?_, ?_, ?_, ?_, ?_, ?_, ?_, ?_⟩
  · rw [resetAll_assets (resetAll st), resetAll_assets st, List.map_map]
    exact List.map_congr_left (fun p hp => rfl)
  · rw [resetAll_teams (resetAll st), resetAll_teams st, List.map_map]
    exact List.map_congr_left (fun p hp => rfl)
  · rw [(resetAll_flags (resetAll st)).1, (resetAll_flags st).1]
  · rw [(resetAll_flags (resetAll st)).2.1, (resetAll_flags st).2.1]
  · rw [(resetAll_flags (resetAll st)).2.2.2]
  · rw [(resetAll_flags (resetAll st)).2.2.1, (resetAll_flags st).2.2.1]
  · rw [resetAll_history (resetAll st), hlen]
    by_cases h : st.assets.length > 0 <;> simp [h]
  · rw [resetAll_gameid (resetAll st), hlen]

/-- Counterexample for C5 as stated: from a state with a nonempty catalog,
calling `reset_all` twice does NOT reproduce the state after one call — the
history log has two entries instead of one. -/
theorem reset_twice_duplicates_history :
    resetAll (resetAll c1State) ≠ resetAll c1State ∧
    (resetAll (resetAll c1State)).game_history.length = 2 ∧
    (resetAll c1State).game_history.length = 1 ∧
    (resetAll (resetAll c1State)).live_game_id = 3 ∧
    (resetAll c1State).live_game_id = 2 := by decide

/-- C8 (corrected): with a nonempty catalog, `reset_all` first appends one
history snapshot of the PRE-reset assets and teams, then clears every asset's
bids and outcome fields, clears every team's won-asset list, and returns the
auction to idle.  Each team's budget is set to `starting_vc || 500000`: the
recorded starting value when it is present and nonzero, but the DEFAULT
`500000` when the starting value is missing or zero — so "restores every
team's budget to that team's starting value" holds only for teams with a
nonzero recorded starting budget (last conjunct). -/
theorem reset_all_behavior (st : GameState) (aid tid : String) (a : Asset) (t : Team)
    (h : st.assets ≠ [])
    (ha : alookup aid st.assets = some a)
    (ht : alookup tid st.teams = some t) :
    (resetAll st).game_history = st.game_history ++ [historySnapshot st] ∧
    (historySnapshot st).assets = st.assets ∧
    (historySnapshot st).teams = st.teams ∧
    (resetAll st).live_game_id = st.live_game_id + 1 ∧
    alookup aid (resetAll st).assets = some (clearAssetFields a) ∧
    alookup tid (resetAll st).teams = some (resetTeamFields t) ∧
    (resetTeamFields t).vc = jsOr t.starting_vc 500000 ∧
    (resetTeamFields t).assets_won = [] ∧
    (∀ v, t.starting_vc = some v → v ≠ 0 → (resetTeamFields t).vc = v) ∧
    (resetAll st).auction_active = false ∧
    (resetAll st).auction_end_time = none := by
  have hpos : st.assets.length > 0 := List.length_pos.mpr h
  refine ⟨?_, rfl, rfl, ?_, ?_, ?_, rfl, rfl, ?_, (resetAll_flags st).1,
    (resetAll_flags st).2.1⟩
  · rw [resetAll_history, if_pos hpos]
  · rw [resetAll_gameid, if_pos hpos]
  · rw [resetAll_assets, alookup_map_snd, ha]
    rfl
  · rw [resetAll_teams, alookup_map_snd, ht]
    rfl
  · intro v hv hv0
    rw [resetTeamFields]
    show jsOr t.starting_vc 500000 = v
    rw [hv, jsOr, if_neg hv0]

/-- Witness for C8 at a concrete state (the pre-reset snapshot is appended
and the asset and team records are cleared). -/
theorem reset_all_behavior_witness :
    (resetAll c1State).game_history = c1State.game_history ++ [historySnapshot c1State] ∧
    alookup "A" (resetAll c1State).teams =
      some (resetTeamFields (mkTeam "A" "Team A" 200 (some 200))) :=
  ⟨(reset_all_behavior c1State "X" "A"
      (mkAsset "X" "Asset X" 100 2 [("A", 150), ("B", 120)])
      (mkTeam "A" "Team A" 200 (some 200)) (by decide) (by decide) (by decide)).1,
   (reset_all_behavior c1State "X" "A"
      (mkAsset "X" "Asset X" 100 2 [("A", 150), ("B", 120)])
      (mkTeam "A" "Team A" 200 (some 200)) (by decide) (by decide) (by decide)).2.2.2.2.2.1⟩

/-- Counterexample for C8 as stated: a team whose recorded starting budget is
`0` has its budget "restored" to the default `500000`, not to its starting
value `0` (`starting_vc || 500000` treats `0` as falsy). -/
theorem reset_zero_starting_vc_default :
    (alookup "T0" c8State.teams).map Team.starting_vc = some (some 0) ∧
    (alookup "T0" (resetAll c8State).teams).map Team.vc = some 500000 := by decide

/-- C1 (corrected): a team whose committed spend exceeds its pre-resolution
budget keeps its budget and won-asset list unchanged, and every asset it won
ends with `winner = "VOID (Budget Fail)"`, `final_price = 0` and an EMPTY
winning pool.  The amendment: the VOID loop clears the asset's entire
`winning_pool` (and zeroes its clearing price), so co-winning teams' entries
on the same asset are wiped as well, not left unaffected (see the
counterexample `void_clears_cowinner_pool`). -/
theorem overbudget_team_all_wins_voided (st : GameState) (tid : String) (tm : Team)
    (wins : List Win)
    (hA : (st.assets.map Prod.fst).Nodup)
    (ht : alookup tid st.teams = some tm)
    (hw : alookup tid (winningBidsOf st) = some wins)
    (hover : tm.vc < spendOf wins) :
    alookup tid (resolveAuction st).teams = some tm ∧
    ∀ w ∈ wins, ∃ a0, alookup w.assetId st.assets = some a0 ∧
      alookup w.assetId (resolveAuction st).assets = some (voidedAsset a0) := by
  have ht0 : alookup tid (phase1Of st).1.teams = some tm := by
    rw [phase1Of_teams]; exact ht
  have hshell := phase1Of_shell st hA
  have hnd := winningBidsOf_keys_nodup st
  have hfail := phase2Go_fail st (winningBidsOf st) (phase1Of st).1 tid tm wins hnd hw
    ht0 hshell hover
  constructor
  · rw [resolveAuction_teams_def]
    exact hfail.1
  · intro w hwm
    obtain ⟨hq, a0, ha0, hpr⟩ := winningBidsOf_inv st hA tid wins hw w hwm
    refine ⟨a0, ha0, ?_⟩
    rw [resolveAuction_assets_def]
    exact hfail.2 w hwm a0 ha0

/-- Witness for C1 (amended) at the concrete two-asset state: team `A`
(budget 200, committed 270) keeps its budget and both of its won assets are
voided. -/
theorem overbudget_team_all_wins_voided_witness :
    (alookup "A" (resolveAuction c1State).teams).map Team.vc = some 200 ∧
    (alookup "X" (resolveAuction c1State).assets).map Asset.winner =
      some (some "VOID (Budget Fail)") := by
  have h := overbudget_team_all_wins_voided c1State "A"
    (mkTeam "A" "Team A" 200 (some 200)) [⟨"X", 120, 1⟩, ⟨"Y", 150, 1⟩]
    (by decide) (by decide) (by decide) (by decide)
  constructor
  · rw [h.1]
    rfl
  · obtain ⟨a0, ha0, hv⟩ := h.2 ⟨"X", 120, 1⟩ (by decide)
    rw [hv]
    rfl

/-- Counterexample for C1 as stated: team `B` is a different winner in asset
`X`'s pool with an affordable total, yet after `A`'s budget void the asset's
`winning_pool` is empty — `B`'s win on the same asset is NOT left unaffected
(although `B` is still charged the original clearing price and receives its
won-asset record). -/
theorem void_clears_cowinner_pool :
    (alookup "X" (phase1Of c1State).1.assets).map Asset.winning_pool = some ["A", "B"] ∧
    alookup "B" (winningBidsOf c1State) = some [⟨"X", 120, 1⟩] ∧
    spendOf [⟨"X", 120, 1⟩] ≤ 500 ∧
    (alookup "B" c1State.teams).map Team.vc = some 500 ∧
    (alookup "X" (resolveAuction c1State).assets).map Asset.winning_pool = some [] ∧
    (alookup "B" (resolveAuction c1State).teams).map Team.vc = some 380 := by decide

/-- C4 (confirmed): a team whose committed total is within its pre-resolution
budget has exactly that total deducted once, and exactly one won-asset record
appended per winning slot — each record holding the asset's name, the
uniform clearing price as its unit cost, and quantity 1. -/
theorem affordable_team_deduction (st : GameState) (tid : String) (tm : Team)
    (wins : List Win)
    (hA : (st.assets.map Prod.fst).Nodup)
    (ht : alookup tid st.teams = some tm)
    (hw : alookup tid (winningBidsOf st) = some wins)
    (haff : spendOf wins ≤ tm.vc) :
    alookup tid (resolveAuction st).teams =
      some { tm with
               vc := tm.vc - spendOf wins,
               assets_won := tm.assets_won ++ wins.map (fun w =>
                 { name := assetName st.assets w.assetId, cost := w.price,
                   quantity := w.quantity_won }) } ∧
    ∀ w ∈ wins, w.quantity_won = 1 ∧ ∃ a0, alookup w.assetId st.assets = some a0 ∧
      w.price = (clearAsset st.teams a0).final_price := by
  have ht0 : alookup tid (phase1Of st).1.teams = some tm := by
    rw [phase1Of_teams]; exact ht
  have hshell := phase1Of_shell st hA
  have hnd := winningBidsOf_keys_nodup st
  have hinv := winningBidsOf_inv st hA
  constructor
  · rw [resolveAuction_teams_def]
    exact phase2Go_afford st (winningBidsOf st) (phase1Of st).1 tid tm wins hnd hw
      ht0 hshell haff
      (fun w hwm => (hinv tid wins hw w hwm).2.imp (fun a0 h => h.1))
  · intro w hwm
    exact hinv tid wins hw w hwm

/-- Witness for C4: the spec's affordable example — budget 500000, one asset
won at clearing price 100000, ending budget 400000 with one record
`{cost := 100000, quantity := 1}`. -/
theorem affordable_team_deduction_witness :
    (alookup "T1" (resolveAuction c4State).teams).map Team.vc = some 400000 ∧
    (alookup "T1" (resolveAuction c4State).teams).map Team.assets_won =
      some [{ name := "Enterprise Cloud Server", cost := 100000, quantity := 1 }] := by
  have h := affordable_team_deduction c4State "T1"
    (mkTeam "T1" "Team Phoenix" 500000 (some 500000)) [⟨"A1", 100000, 1⟩]
    (by decide) (by decide) (by decide) (by decide)
  rw [h.1]
  exact ⟨by decide, by decide⟩

/-- C7 (corrected): under the assumption that every team's current and
starting budget is nonnegative, bid acceptance, resolution (whose deduction
is guarded by `totalCost <= team.vc`), both reset paths, and force-stop all
preserve nonnegativity of every budget.  The assumption is necessary: the
admin team CRUD accepts a negative `starting_vc` and immediately creates a
team with a negative budget (see `negative_starting_vc_reachable`), so the
claim's unconditional "never negative" is false for the program as a whole. -/
theorem ops_preserve_nonneg_budgets (st : GameState) (now b : Int) (tid aid : String)
    (hT : (st.teams.map Prod.fst).Nodup)
    (hA : (st.assets.map Prod.fst).Nodup)
    (h0 : BudgetsNonneg st) (hs : StartingNonneg st) :
    BudgetsNonneg (placeBid st tid aid b).1 ∧
    BudgetsNonneg (resolveAuction st) ∧
    BudgetsNonneg (resetLiveGameState st) ∧
    BudgetsNonneg (resetAll st) ∧
    BudgetsNonneg (forceStop st now).state := by
  refine ⟨?_, resolveAuction_nonneg st hT hA h0, resetLive_nonneg st hs, ?_, ?_⟩
  · intro p hp
    rw [placeBid_teams_eq] at hp
    exact h0 p hp
  · intro p hp
    rw [resetAll_teams_eq] at hp
    exact resetLive_nonneg st hs p hp
  · rw [forceStop]
    by_cases h : st.auction_active = false
    · rw [if_pos h]
      exact h0
    · rw [if_neg h]
      exact resolveAuction_nonneg _ hT hA h0

/-- Witness for C7 (amended) at a concrete state with nonnegative budgets. -/
theorem ops_preserve_nonneg_budgets_witness :
    BudgetsNonneg (resolveAuction c2State) ∧ BudgetsNonneg (resetAll c2State) :=
  ⟨(ops_preserve_nonneg_budgets c2State 0 150 "A" "Z" (by decide) (by decide)
      (by decide) (by decide)).2.1,
   (ops_preserve_nonneg_budgets c2State 0 150 "A" "Z" (by decide) (by decide)
      (by decide) (by decide)).2.2.2.1⟩

/-- Counterexample for C7 as stated: from the default (empty) state, one
admin team-creation request with `starting_vc = -1` reaches a state in which
that team's budget is `-1 < 0`, and even a subsequent reset restores the
negative value. -/
theorem negative_starting_vc_reachable :
    (alookup "T1" (teamAction defaultState (TeamCrud.add "T1") "Team Phoenix" "u" "p"
        (-1)).teams).map Team.vc = some (-1) ∧
    (alookup "T1" (resetLiveGameState (teamAction defaultState (TeamCrud.add "T1")
        "Team Phoenix" "u" "p" (-1))).teams).map Team.vc = some (-1) := by decide

/-- C3 (confirmed): phase 1 of `resolveAuction` never mutates the team map
(first conjunct), every asset is cleared as a pure function of the
pre-resolution team snapshot `st.teams` (second conjunct), and a ledger entry
is counted as a valid bid exactly when the bid is at least the asset's
minimum bid and at most the bidding team's pre-resolution budget (third
conjunct) — so all per-asset pools read the same budget snapshot, before any
deduction of the pass. -/
theorem valid_bid_snapshot (st : GameState) (aid : String) (a : Asset)
    (hA : (st.assets.map Prod.fst).Nodup)
    (ha : alookup aid st.assets = some a) :
    (phase1Of st).1.teams = st.teams ∧
    alookup aid (phase1Of st).1.assets = some (clearAsset st.teams a) ∧
    (∀ tid b, (∃ nm, (⟨tid, b, nm⟩ : VBid) ∈ validBidsOf st.teams a) ↔
       ((tid, b) ∈ a.current_bids ∧ a.min_bid ≤ b ∧
        ∃ t, alookup tid st.teams = some t ∧ b ≤ t.vc)) := by
  refine ⟨phase1Of_teams st, ?_, ?_⟩
  · rw [phase1Of_assets st hA aid, ha]
    rfl
  · intro tid b
    constructor
    · rintro ⟨nm, hmem⟩
      rw [validBidsOf] at hmem
      rcases List.mem_filterMap.mp hmem with ⟨⟨p1, p2⟩, hp, hfp⟩
      cases hlk : alookup p1 st.teams with
      | none => rw [hlk] at hfp; simp at hfp
      | some t =>
          rw [hlk] at hfp
          have hfp' : (if a.min_bid ≤ p2 ∧ p2 ≤ t.vc then
              some (⟨p1, p2, t.name⟩ : VBid) else none) = some ⟨tid, b, nm⟩ := hfp
          by_cases hc : a.min_bid ≤ p2 ∧ p2 ≤ t.vc
          · rw [if_pos hc] at hfp'
            have hinj := Option.some.inj hfp'
            have h1 : p1 = tid := congrArg VBid.teamId hinj
            have h2 : p2 = b := congrArg VBid.bid hinj
            subst h1
            subst h2
            exact ⟨hp, hc.1, t, hlk, hc.2⟩
          · rw [if_neg hc] at hfp'
            simp at hfp'
    · rintro ⟨hmem, hmin, t, hlk, hvc⟩
      refine ⟨t.name, ?_⟩
      rw [validBidsOf]
      refine List.mem_filterMap.mpr ⟨(tid, b), hmem, ?_⟩
      simp [hlk, hmin, hvc]

/-- Witness for C3 at a concrete state. -/
theorem valid_bid_snapshot_witness :
    (phase1Of c2State).1.teams = c2State.teams ∧
    alookup "Z" (phase1Of c2State).1.assets =
      some (clearAsset c2State.teams
        (mkAsset "Z" "Asset Z" 100 2 [("A", 150), ("B", 120), ("C", 200)])) :=
  ⟨(valid_bid_snapshot c2State "Z"
      (mkAsset "Z" "Asset Z" 100 2 [("A", 150), ("B", 120), ("C", 200)])
      (by decide) (by decide)).1,
   (valid_bid_snapshot c2State "Z"
      (mkAsset "Z" "Asset Z" 100 2 [("A", 150), ("B", 120), ("C", 200)])
      (by decide) (by decide)).2.1⟩

/-- C2 (confirmed): for every asset (with the data model's nonnegative
quantity), phase 1 of `resolveAuction` selects as the winning pool the top
`quantity` entries of the stable descending sort of the valid bids (all valid
bidders when there are fewer than `quantity`), marks a nonempty pool
`"MULTIPLE"` with clearing price equal to the LOWEST bid in the pool (the
`quantity`-th highest valid bid, or the lowest valid bid when fewer), charges
every winner exactly that clearing price for one unit, and marks an empty
pool `"NO_WINNER"` with clearing price `0`. -/
theorem uniform_price_clearing (st : GameState) (aid : String) (a : Asset)
    (hA : (st.assets.map Prod.fst).Nodup)
    (ha : alookup aid st.assets = some a)
    (hq : 0 ≤ a.quantity) :
    ∃ a', alookup aid (phase1Of st).1.assets = some a' ∧
      (poolOf st.teams a =
        (sortBidsDesc (validBidsOf st.teams a)).take a.quantity.toNat) ∧
      a'.winning_pool = (poolOf st.teams a).map VBid.teamId ∧
      (poolOf st.teams a = [] → a'.winner = some "NO_WINNER" ∧ a'.final_price = 0) ∧
      (poolOf st.teams a ≠ [] →
        a'.winner = some "MULTIPLE" ∧
        (∃ x ∈ poolOf st.teams a, x.bid = a'.final_price) ∧
        (∀ x ∈ poolOf st.teams a, a'.final_price ≤ x.bid)) ∧
      ((validBidsOf st.teams a).length ≤ a.quantity.toNat →
        ∀ x ∈ validBidsOf st.teams a, x.teamId ∈ a'.winning_pool) ∧
      (∀ tid wins, alookup tid (winningBidsOf st) = some wins →
        ∀ w ∈ wins, w.assetId = aid → w.price = a'.final_price ∧ w.quantity_won = 1) := by
  have hlook : alookup aid (phase1Of st).1.assets = some (clearAsset st.teams a) := by
    rw [phase1Of_assets st hA aid, ha]
    rfl
  have hpool : poolOf st.teams a =
      (sortBidsDesc (validBidsOf st.teams a)).take a.quantity.toNat := by
    rw [poolOf, jsSliceTo, if_pos hq]
  have hpair : (poolOf st.teams a).Pairwise (fun x y => y.bid ≤ x.bid) := by
    rw [hpool]
    exact (pairwise_sortBidsDesc _).sublist (List.take_sublist _ _)
  refine ⟨clearAsset st.teams a, hlook, hpool, clearAsset_winning_pool st.teams a,
    ?_, ?_, ?_, ?_⟩
  · intro hp
    rw [clearAsset_eq_nil _ _ hp]
    exact ⟨rfl, rfl⟩
  · intro hne
    cases hp : poolOf st.teams a with
    | nil => exact absurd hp hne
    | cons w ws =>
        rw [clearAsset_eq_cons _ _ _ _ hp]
        rw [hp] at hpair
        refine ⟨rfl, ⟨lastOf w ws, ?_, rfl⟩, ?_⟩
        · exact lastOf_mem w ws
        · intro x hx
          exact lastOf_le w ws hpair x hx
  · intro hlen x hx
    have hall : poolOf st.teams a = sortBidsDesc (validBidsOf st.teams a) := by
      rw [hpool]
      exact List.take_of_length_le (by rw [length_sortBidsDesc]; exact hlen)
    rw [clearAsset_winning_pool, hall]
    exact List.mem_map_of_mem VBid.teamId ((mem_sortBidsDesc x _).mpr hx)
  · intro tid wins hw w hwm hwaid
    obtain ⟨hq1, a0, ha0, hpr⟩ := winningBidsOf_inv st hA tid wins hw w hwm
    rw [hwaid] at ha0
    have heq : a0 = a := Option.some.inj (ha0.symm.trans ha)
    rw [heq] at hpr
    exact ⟨hpr, hq1⟩

/-- Witness for C2: the worked example — `min_bid = 100`, `quantity = 2`,
bids `A:150, B:120, C:200` — yields winning pool `[C, A]` at uniform price
`150` (the second-highest bid). -/
theorem uniform_price_clearing_witness :
    (alookup "Z" (phase1Of c2State).1.assets).map Asset.winning_pool =
      some ((poolOf c2State.teams (mkAsset "Z" "Asset Z" 100 2
        [("A", 150), ("B", 120), ("C", 200)])).map VBid.teamId) ∧
    (poolOf c2State.teams (mkAsset "Z" "Asset Z" 100 2
      [("A", 150), ("B", 120), ("C", 200)])).map VBid.teamId = ["C", "A"] ∧
    (alookup "Z" (phase1Of c2State).1.assets).map Asset.final_price = some 150 := by
  obtain ⟨a', hl, hpool, hwp, hnil, hcons, hall, hpay⟩ := uniform_price_clearing c2State
    "Z" (mkAsset "Z" "Asset Z" 100 2 [("A", 150), ("B", 120), ("C", 200)])
    (by decide) (by decide) (by decide)
  refine ⟨by rw [hl, Option.map, hwp], by decide, ?_⟩
  have h150 := hpay "C" [⟨"Z", 150, 1⟩] (by decide) ⟨"Z", 150, 1⟩ (by decide) rfl
  rw [hl, Option.map, ← h150.1]

/-- C10 (confirmed): winner selection is a deterministic function of the
pre-resolution state — `resolveAuction`'s per-asset pool is
`slice(0, quantity)` of the stable descending sort of the valid bids taken in
the ledger's insertion order.  The sort is sorted (third conjunct) and stable
(fourth conjunct: for every amount `v`, the subsequence of bids of amount `v`
is exactly the ledger-order subsequence), so of two equal bids the
earlier-inserted team is ranked ahead; two runs from identical states are the
same function application and produce identical pools and prices. -/
theorem winner_selection_stable (st : GameState) (aid : String) (a : Asset)
    (hA : (st.assets.map Prod.fst).Nodup)
    (ha : alookup aid st.assets = some a) :
    (∃ a', alookup aid (phase1Of st).1.assets = some a' ∧
       a'.winning_pool = (poolOf st.teams a).map VBid.teamId) ∧
    poolOf st.teams a = jsSliceTo a.quantity (sortBidsDesc (validBidsOf st.teams a)) ∧
    (sortBidsDesc (validBidsOf st.teams a)).Pairwise (fun x y => y.bid ≤ x.bid) ∧
    (∀ v : Int, (sortBidsDesc (validBidsOf st.teams a)).filter (fun e => e.bid == v) =
       (validBidsOf st.teams a).filter (fun e => e.bid == v)) := by
  refine ⟨⟨clearAsset st.teams a, ?_, clearAsset_winning_pool st.teams a⟩, rfl,
    pairwise_sortBidsDesc _, fun v => filter_sortBidsDesc _ v⟩
  rw [phase1Of_assets st hA aid, ha]
  rfl

/-- Witness for C10 at a state with two equal bids: the earlier-inserted team
`A` wins the single unit, and the amount-150 subsequence keeps ledger order
`[A, B]`. -/
theorem winner_selection_stable_witness :
    ((sortBidsDesc (validBidsOf c10State.teams c10Asset)).filter
        (fun e => e.bid == 150) =
      (validBidsOf c10State.teams c10Asset).filter (fun e => e.bid == 150)) ∧
    (poolOf c10State.teams c10Asset).map VBid.teamId = ["A"] ∧
    (validBidsOf c10State.teams c10Asset).map VBid.teamId = ["A", "B"] :=
  ⟨(winner_selection_stable c10State "W" c10Asset (by decide) (by decide)).2.2.2 150,
   by decide, by decide⟩

/-- C6 (confirmed): a bid submission is accepted exactly when the auction is
running, the asset and team are known, the amount is at least the asset's
minimum bid and at most the team's current budget (first conjunct); every
rejection leaves the whole state — in particular the bid ledger — unchanged
(second conjunct); an accepted submission overwrites any prior bid by that
team for that asset, leaving exactly one, most recent, amount for the
`(asset, team)` pair, other teams' entries and the key-uniqueness of the
ledger untouched (third conjunct), and other assets' ledgers untouched
(fourth conjunct). -/
theorem place_bid_spec (st : GameState) (tid aid : String) (b : Int) :
    ((placeBid st tid aid b).2 = BidOutcome.accepted ↔
      (st.auction_active = true ∧ ∃ a t, alookup aid st.assets = some a ∧
        alookup tid st.teams = some t ∧ a.min_bid ≤ b ∧ b ≤ t.vc)) ∧
    ((placeBid st tid aid b).2 ≠ BidOutcome.accepted → (placeBid st tid aid b).1 = st) ∧
    (∀ a, alookup aid st.assets = some a → (placeBid st tid aid b).2 = BidOutcome.accepted →
      ∃ a', alookup aid (placeBid st tid aid b).1.assets = some a' ∧
        a'.current_bids = aupsert tid b a.current_bids ∧
        alookup tid a'.current_bids = some b ∧
        (∀ tid2, tid2 ≠ tid → alookup tid2 a'.current_bids = alookup tid2 a.current_bids) ∧
        ((a.current_bids.map Prod.fst).Nodup → (a'.current_bids.map Prod.fst).Nodup)) ∧
    (∀ aid2, aid2 ≠ aid →
      alookup aid2 (placeBid st tid aid b).1.assets = alookup aid2 st.assets) := by
  by_cases hact : st.auction_active = false
  · have hpb : placeBid st tid aid b = (st, BidOutcome.notActive) := by
      rw [placeBid, if_pos hact]
    rw [hpb]
    refine ⟨?_, fun _ => rfl, ?_, fun aid2 _ => rfl⟩
    · simp [hact]
    · intro a ha hacc
      simp at hacc
  · have hact' : st.auction_active = true := by
      cases hcase : st.auction_active
      · exact absurd hcase hact
      · rfl
    cases hA : alookup aid st.assets with
    | none =>
        have hpb : placeBid st tid aid b = (st, BidOutcome.invalidTarget) := by
          rw [placeBid, if_neg hact, hA]
        rw [hpb]
        refine ⟨?_, fun _ => rfl, ?_, fun aid2 _ => rfl⟩
        · simp
        · intro a ha hacc
          simp at ha
    | some a =>
        cases hT : alookup tid st.teams with
        | none =>
            have hpb : placeBid st tid aid b = (st, BidOutcome.invalidTarget) := by
              rw [placeBid, if_neg hact, hA, hT]
            rw [hpb]
            refine ⟨?_, fun _ => rfl, ?_, fun aid2 _ => rfl⟩
            · constructor
              · intro hfalse
                simp at hfalse
              · rintro ⟨_, a2, t2, ha2, ht2, hm2, hv2⟩
                simp at ht2
            · intro a2 ha2 hacc
              simp at hacc
        | some t =>
            by_cases hmin : b < a.min_bid
            · have hpb : placeBid st tid aid b = (st, BidOutcome.belowMin) := by
                rw [placeBid, if_neg hact, hA, hT]
                show (if b < a.min_bid then (st, BidOutcome.belowMin)
                      else if t.vc < b then (st, BidOutcome.overBudget) else _) =
                    (st, BidOutcome.belowMin)
                rw [if_pos hmin]
              rw [hpb]
              refine ⟨?_, fun _ => rfl, ?_, fun aid2 _ => rfl⟩
              · constructor
                · intro hfalse
                  simp at hfalse
                · rintro ⟨_, a2, t2, ha2, ht2, hm2, hv2⟩
                  have hea : a2 = a := (Option.some.inj ha2).symm
                  rw [hea] at hm2
                  exact absurd hm2 (not_le.mpr hmin)
              · intro a2 ha2 hacc
                simp at hacc
            · by_cases hvc : t.vc < b
              · have hpb : placeBid st tid aid b = (st, BidOutcome.overBudget) := by
                  rw [placeBid, if_neg hact, hA, hT]
                  show (if b < a.min_bid then (st, BidOutcome.belowMin)
                        else if t.vc < b then (st, BidOutcome.overBudget) else _) =
                      (st, BidOutcome.overBudget)
                  rw [if_neg hmin, if_pos hvc]
                rw [hpb]
                refine ⟨?_, fun _ => rfl, ?_, fun aid2 _ => rfl⟩
                · constructor
                  · intro hfalse
                    simp at hfalse
                  · rintro ⟨_, a2, t2, ha2, ht2, hm2, hv2⟩
                    have het : t2 = t := (Option.some.inj ht2).symm
                    rw [het] at hv2
                    exact absurd hv2 (not_le.mpr hvc)
                · intro a2 ha2 hacc
                  simp at hacc
              · have hpb : placeBid st tid aid b =
                    ({ st with
                         assets := aupdate aid (fun x =>
                           { x with current_bids := aupsert tid b x.current_bids })
                           st.assets,
                         live_bid_log := st.live_bid_log ++
                           [{ teamName := t.name, assetName := a.name,
                              bidAmount := b }] },
                     BidOutcome.accepted) := by
                  rw [placeBid, if_neg hact, hA, hT]
                  show (if b < a.min_bid then (st, BidOutcome.belowMin)
                        else if t.vc < b then (st, BidOutcome.overBudget) else _) = _
                  rw [if_neg hmin, if_neg hvc]
                rw [hpb]
                refine ⟨?_, ?_, ?_, ?_⟩
                · constructor
                  · intro _
                    exact ⟨hact', a, t, rfl, rfl, not_lt.mp hmin, not_lt.mp hvc⟩
                  · intro _
                    rfl
                · intro hne
                  exact absurd rfl hne
                · intro a2 ha2 _
                  have hea : a2 = a := (Option.some.inj ha2).symm
                  subst hea
                  refine ⟨{ a2 with current_bids := aupsert tid b a2.current_bids },
                    ?_, rfl, alookup_aupsert_self tid b a2.current_bids, ?_, ?_⟩
                  · refine Eq.trans (alookup_aupdate_self aid (fun x =>
                      { x with current_bids := aupsert tid b x.current_bids })
                      st.assets) ?_
                    rw [hA]
                    rfl
                  · intro tid2 h2
                    exact alookup_aupsert_ne tid2 tid b a2.current_bids h2
                  · intro hnd
                    exact aupsert_keys_nodup tid b a2.current_bids hnd
                · intro aid2 h2
                  exact alookup_aupdate_ne aid2 aid (fun x =>
                    { x with current_bids := aupsert tid b x.current_bids }) st.assets h2

/-- Witness for C6: an accepted bid at a running auction overwrites team `A`'s
prior entry. -/
theorem place_bid_spec_witness :
    (placeBid c2Running "A" "Z" 130).2 = BidOutcome.accepted ∧
    (∃ a', alookup "Z" (placeBid c2Running "A" "Z" 130).1.assets = some a' ∧
      a'.current_bids = aupsert "A" 130
        (mkAsset "Z" "Asset Z" 100 2 [("A", 150), ("B", 120), ("C", 200)]).current_bids ∧
      alookup "A" a'.current_bids = some 130 ∧
      (∀ tid2, tid2 ≠ "A" → alookup tid2 a'.current_bids = alookup tid2
        (mkAsset "Z" "Asset Z" 100 2 [("A", 150), ("B", 120), ("C", 200)]).current_bids) ∧
      (((mkAsset "Z" "Asset Z" 100 2
          [("A", 150), ("B", 120), ("C", 200)]).current_bids.map Prod.fst).Nodup →
        (a'.current_bids.map Prod.fst).Nodup)) := by
  have hacc : (placeBid c2Running "A" "Z" 130).2 = BidOutcome.accepted :=
    (place_bid_spec c2Running "A" "Z" 130).1.mpr
      ⟨rfl, mkAsset "Z" "Asset Z" 100 2 [("A", 150), ("B", 120), ("C", 200)],
       mkTeam "A" "Team A" 500000 (some 500000), by decide, by decide, by decide,
       by decide⟩
  exact ⟨hacc, (place_bid_spec c2Running "A" "Z" 130).2.2.1
    (mkAsset "Z" "Asset Z" 100 2 [("A", 150), ("B", 120), ("C", 200)])
    (by decide) hacc⟩

end Gambit
